import Mathlib

/-!
Verification of the autoscaling core in `heat/engine/resources/autoscaling.py`.

The embedding models the persisted state exactly as the source does: the
membership of a group is kept in `resource_id` as a single comma-joined
string of member names, parsed back with `sorted(resource_id.split(','))`
on every access.  Member creation and destruction are external calls; their
outcomes are supplied as oracle functions from member name to an optional
error string (`none` means the call succeeded), mirroring the `error_str`
protocol of `GroupedInstance.create` / `destroy`.

Python-2 semantics that matter here and are modelled faithfully:
  - `str` comparison is lexicographic by code point (`sorted`),
  - `/` on ints is floor division,
  - `l[k:]` for negative `k` counts from the end (clamped at 0),
  - `list.remove` drops the first occurrence,
  - `''.split(',')` is `['']`.
-/

namespace Heat

/-- Python `s.split(c)` on a character list: splitting on every occurrence
of `c`, keeping empty pieces, so the result always has one more piece than
there are separators (in particular `split c [] = [[]]`). -/
def splitCharList (c : Char) : List Char → List (List Char)
  | [] => [[]]
  | ch :: rest =>
      if ch = c then [] :: splitCharList c rest
      else (splitCharList c rest).modifyHead (fun h => ch :: h)

/-- Python `c.join(parts)` on character lists. -/
def joinCharList (c : Char) : List (List Char) → List Char
  | [] => []
  | [l] => l
  | l :: l' :: ls => l ++ c :: joinCharList c (l' :: ls)

/-- `self.resource_id.split(',')` from the source. -/
def pySplit (s : String) : List String :=
  (splitCharList ',' s.toList).map (fun l => String.mk l)

/-- `','.join(inst_list)` from the source. -/
def joinComma (l : List String) : String :=
  String.mk (joinCharList ',' (l.map String.toList))

/-- Python string `<`: lexicographic comparison of the character lists by
code point, with a proper prefix comparing less. -/
def strLtB : List Char → List Char → Bool
  | [], [] => false
  | [], _ :: _ => true
  | _ :: _, [] => false
  | a :: as, b :: bs => if a < b then true else if b < a then false else strLtB as bs

/-- The `≤` relation under which Python's `sorted` orders strings:
`a ≤ b` iff not `b < a`. -/
def pyLe (a b : String) : Prop := strLtB b.toList a.toList = false

instance : DecidableRel pyLe := fun _ _ => instDecidableEqBool _ _

/-- `sorted(self.resource_id.split(','))` when `resource_id` is not `None`,
`[]` otherwise: the member list as read back at the start of `resize`
(lines 119-121) and of `adjust` (lines 218-220). -/
def parseList (rid : Option String) : List String :=
  match rid with
  | none => []
  | some s => List.insertionSort pyLe (pySplit s)

/-- `'%s-%d' % (self.name, x)`: the synthesized member name. -/
def memberName (g : String) (x : Nat) : String :=
  g ++ "-" ++ toString x

/-- Python `l[k:]` (no stop, no step): for `k < 0` the start counts from
the end of the list, clamped at 0. -/
def pyDropSlice (l : List String) (k : Int) : List String :=
  if 0 ≤ k then l.drop k.toNat
  else l.drop ((l.length : Int) + k).toNat

/-- Outcome of one `resize` call: the final persisted `resource_id` and the
error carried by a `NestedResourceFailure`, if one was raised. -/
structure ResizeRes where
  rid : Option String
  err : Option String
  deriving DecidableEq

/-- The grow loop of `InstanceGroup.resize` (lines 130-142): for each new
index the name is appended to the list and `resource_id` persisted, then
`inst.create()` runs; on a creation error with `raise_on_error` set the
loop aborts by raising. -/
def growLoop (g : String) (cr : String → Option String) (roe : Bool) :
    List Nat → List String → Option String → ResizeRes
  | [], _lst, rid => ⟨rid, none⟩
  | x :: xs, lst, _rid =>
      let name := memberName g x
      let lst' := lst ++ [name]
      let rid' := some (joinComma lst')
      match cr name with
      | some e => if roe then ⟨rid', some e⟩ else growLoop g cr roe xs lst' rid'
      | none => growLoop g cr roe xs lst' rid'

/-- The shrink loop of `InstanceGroup.resize` (lines 143-150): each victim
is destroyed (the return value of `inst.destroy()` is discarded), removed
from the list with `list.remove`, and `resource_id` persisted. -/
def shrinkLoop (dr : String → Option String) :
    List String → List String → Option String → Option String
  | [], _lst, rid => rid
  | v :: vs, lst, _rid =>
      let _ := dr v
      let lst' := lst.erase v
      shrinkLoop dr vs lst' (some (joinComma lst'))

/-- `InstanceGroup.resize(new_capacity, raise_on_error)` (lines 118-162).
`cr` and `dr` supply the outcomes of the external `create` / `destroy`
calls per member name.  The load-balancer notification at the end mutates
no state modelled here and is omitted. -/
def resize (g : String) (cr dr : String → Option String) (roe : Bool)
    (t : Int) (rid : Option String) : ResizeRes :=
  let inst_list := parseList rid
  let capacity : Int := inst_list.length
  if t = capacity then ⟨rid, none⟩
  else if capacity < t then
    growLoop g cr roe (List.range' inst_list.length (t.toNat - inst_list.length)) inst_list rid
  else
    ⟨shrinkLoop dr (pyDropSlice inst_list t).reverse inst_list rid, none⟩

/-- `max(0, int(Cooldown))` with the `TypeError` branch mapping an absent
property to 0 (`CooldownMixin._cooldown_inprogress`, lines 33-38). -/
def cooldownWindow : Option Int → Int
  | none => 0
  | some v => max 0 v

/-- Modelled from the spec: `heat.openstack.common.timeutils.is_older_than`
is imported by the source but its code is not under `src/`; per the spec's
CooldownGuard section, `inProgress()` is true iff a record exists and
`now - record.timestamp < window`, so a timestamp is "older than" `w`
seconds exactly when `now - ts ≥ w`. -/
def is_older_than (now ts : Nat) (seconds : Int) : Bool :=
  decide ((now : Int) - (ts : Int) ≥ seconds)

/-- `CooldownMixin._cooldown_inprogress` (lines 31-45).  The metadata holds
at most one record `{timestamp: reason}`; `metadata.keys()[0]` is its
timestamp. -/
def cooldown_inprogress (now : Nat) (cooldownProp : Option Int)
    (metadata : Option (Nat × String)) : Bool :=
  match metadata with
  | none => false
  | some (ts, _) =>
      let cooldown := cooldownWindow cooldownProp
      if cooldown ≠ 0 then ! is_older_than now ts cooldown else false

/-- `CooldownMixin._cooldown_timestamp` (lines 47-53): overwrite the record
with the current time and the reason. -/
def cooldown_timestamp (now : Nat) (reason : String) : Option (Nat × String) :=
  some (now, reason)

/-- The properties of an `AutoScalingGroup` that the scaling logic reads
(`int(...)` conversions applied at the use sites in the source). -/
structure ASGProps where
  MinSize : Int
  MaxSize : Int
  Cooldown : Option Int
  DesiredCapacity : Option Int

/-- The mutable state of an `AutoScalingGroup`: the persisted membership
string and the cooldown metadata record. -/
structure ASGState where
  resource_id : Option String
  metadata : Option (Nat × String)
  deriving DecidableEq

/-- The new-capacity computation of `AutoScalingGroup.adjust`
(lines 223-229).  Any `adjustment_type` other than the two tested strings
falls into the `PercentChangeInCapacity` branch, whose Python-2 `/` is
floor division. -/
def newCapacityFor (adjustment_type : String) (adjustment capacity : Int) : Int :=
  if adjustment_type = "ChangeInCapacity" then capacity + adjustment
  else if adjustment_type = "ExactCapacity" then adjustment
  else capacity + Int.fdiv (capacity * adjustment) 100

/-- The body of `AutoScalingGroup.adjust` after the cooldown gate
(lines 218-244): compute the target, reject it outside the bounds, no-op
on no change, otherwise resize and stamp the cooldown record.  A
`NestedResourceFailure` raised by `resize` propagates (second component)
and skips the stamping. -/
def adjustCore (now : Nat) (g : String) (props : ASGProps)
    (cr dr : String → Option String) (roe : Bool)
    (adjustment : Int) (adjustment_type : String) (st : ASGState) :
    ASGState × Option String :=
  let inst_list := parseList st.resource_id
  let capacity : Int := inst_list.length
  let new_capacity := newCapacityFor adjustment_type adjustment capacity
  if new_capacity > props.MaxSize then (st, none)
  else if new_capacity < props.MinSize then (st, none)
  else if new_capacity = capacity then (st, none)
  else
    let r := resize g cr dr roe new_capacity st.resource_id
    match r.err with
    | some e => ({ st with resource_id := r.rid }, some e)
    | none =>
        ({ resource_id := r.rid,
           metadata := cooldown_timestamp now
             (adjustment_type ++ " : " ++ toString adjustment) }, none)

/-- `AutoScalingGroup.adjust` (lines 211-244): a cooldown in progress
suppresses the whole adjustment with no action and no error. -/
def adjust (now : Nat) (g : String) (props : ASGProps)
    (cr dr : String → Option String) (roe : Bool)
    (adjustment : Int) (adjustment_type : String) (st : ASGState) :
    ASGState × Option String :=
  if cooldown_inprogress now props.Cooldown st.metadata then (st, none)
  else adjustCore now g props cr dr roe adjustment adjustment_type st

/-- `AutoScalingGroup.handle_create` (lines 198-206): the initial target is
`DesiredCapacity` when that property is truthy (present and nonzero),
otherwise `MinSize`, applied through `adjust` with `ExactCapacity` and
`raise_on_error=True`. -/
def handle_create (now : Nat) (g : String) (props : ASGProps)
    (cr dr : String → Option String) (st : ASGState) : ASGState × Option String :=
  let num_to_create : Int :=
    match props.DesiredCapacity with
    | some d => if d = 0 then props.MinSize else d
    | none => props.MinSize
  adjust now g props cr dr true num_to_create "ExactCapacity" st

/-- A string with no comma can survive the comma-join/split round trip;
member names satisfy it whenever the group name does. -/
def commaFree (s : String) : Prop := ',' ∉ s.toList

instance (s : String) : Decidable (commaFree s) :=
  inferInstanceAs (Decidable (',' ∉ s.toList))

end Heat


namespace Heat

/-! ### Round-trip facts about the comma-joined persistence format -/

theorem splitCharList_ne_nil (c : Char) : ∀ (l : List Char), splitCharList c l ≠ []
  | [] => by simp [splitCharList]
  | ch :: rest => by
      simp only [splitCharList]
      split
      · simp
      · have h := splitCharList_ne_nil c rest
        cases hr : splitCharList c rest with
        | nil => exact absurd hr h
        | cons a t => simp

theorem splitCharList_of_not_mem {c : Char} :
    ∀ {l : List Char}, c ∉ l → splitCharList c l = [l]
  | [], _ => rfl
  | ch :: rest, h => by
      have hne : ¬ ch = c := fun hc => h (hc ▸ List.mem_cons_self ch rest)
      have hrest : c ∉ rest := fun hc => h (List.mem_cons_of_mem ch hc)
      simp only [splitCharList, if_neg hne, splitCharList_of_not_mem hrest,
        List.modifyHead_cons]

theorem splitCharList_append {c : Char} :
    ∀ {l : List Char} (r : List Char), c ∉ l →
      splitCharList c (l ++ c :: r) = l :: splitCharList c r
  | [], r, _ => by simp [splitCharList]
  | ch :: l, r, h => by
      have hne : ¬ ch = c := fun hc => h (hc ▸ List.mem_cons_self ch l)
      have hl : c ∉ l := fun hc => h (List.mem_cons_of_mem ch hc)
      simp only [List.cons_append, splitCharList, if_neg hne, List.append_eq,
        splitCharList_append r hl, List.modifyHead_cons]

theorem splitCharList_join {c : Char} :
    ∀ {ls : List (List Char)}, ls ≠ [] → (∀ l ∈ ls, c ∉ l) →
      splitCharList c (joinCharList c ls) = ls
  | [], h, _ => absurd rfl h
  | [l], _, hc => by
      simp only [joinCharList]
      exact splitCharList_of_not_mem (hc l (List.mem_singleton_self l))
  | l :: l' :: ls, _, hc => by
      simp only [joinCharList]
      rw [splitCharList_append _ (hc l (List.mem_cons_self l _)),
        splitCharList_join (List.cons_ne_nil l' ls)
          (fun x hx => hc x (List.mem_cons_of_mem l hx))]

theorem mem_splitCharList {c : Char} :
    ∀ {l p : List Char}, p ∈ splitCharList c l → c ∉ p
  | [], p, hp => by
      simp [splitCharList] at hp
      simp [hp]
  | ch :: rest, p, hp => by
      by_cases hch : ch = c
      · simp only [splitCharList, if_pos hch] at hp
        rcases List.mem_cons.mp hp with h | h
        · simp [h]
        · exact mem_splitCharList h
      · simp only [splitCharList, if_neg hch] at hp
        rcases hs : splitCharList c rest with _ | ⟨a, t⟩
        · exact absurd hs (splitCharList_ne_nil c rest)
        · rw [hs, List.modifyHead_cons] at hp
          rcases List.mem_cons.mp hp with h | h
          · subst h
            have ha : c ∉ a := mem_splitCharList (hs ▸ List.mem_cons_self a t)
            intro hmem
            rcases List.mem_cons.mp hmem with h' | h'
            · exact hch h'.symm
            · exact ha h'
          · exact mem_splitCharList (hs ▸ List.mem_cons_of_mem a h)

theorem pySplit_joinComma {L : List String} (h : L ≠ []) (hc : ∀ s ∈ L, commaFree s) :
    pySplit (joinComma L) = L := by
  have hmap : L.map String.toList ≠ [] := by
    intro hh
    exact h (List.map_eq_nil_iff.mp hh)
  have hfree : ∀ l ∈ L.map String.toList, ',' ∉ l := by
    intro l hl
    rcases List.mem_map.mp hl with ⟨s, hs, rfl⟩
    exact hc s hs
  show (splitCharList ',' (joinCharList ',' (L.map String.toList))).map
      (fun l => String.mk l) = L
  rw [splitCharList_join hmap hfree, List.map_map]
  have : (fun l => String.mk l) ∘ String.toList = id := by
    funext s
    rfl
  rw [this, List.map_id]

theorem commaFree_of_mem_pySplit {s x : String} (hx : x ∈ pySplit s) : commaFree x := by
  rcases List.mem_map.mp hx with ⟨p, hp, rfl⟩
  exact mem_splitCharList hp

end Heat

namespace Heat

/-! ### Facts about `parseList` and member names -/

theorem length_parseList_some (s : String) :
    (parseList (some s)).length = (pySplit s).length :=
  (List.perm_insertionSort pyLe (pySplit s)).length_eq

theorem mem_parseList_some {s : String} {x : String} :
    x ∈ parseList (some s) ↔ x ∈ pySplit s :=
  (List.perm_insertionSort pyLe (pySplit s)).mem_iff

theorem commaFree_of_mem_parseList {rid : Option String} {x : String}
    (hx : x ∈ parseList rid) : commaFree x := by
  cases rid with
  | none => simp [parseList] at hx
  | some s => exact commaFree_of_mem_pySplit (mem_parseList_some.mp hx)

theorem length_parseList_joinComma {L : List String} (h : L ≠ [])
    (hc : ∀ s ∈ L, commaFree s) :
    (parseList (some (joinComma L))).length = L.length := by
  rw [length_parseList_some, pySplit_joinComma h hc]

theorem digitChar_ne_comma {m : Nat} (h : m < 10) : Nat.digitChar m ≠ ',' := by
  interval_cases m <;> decide

theorem toDigitsCore_ne_comma :
    ∀ (fuel n : Nat) (ds : List Char), (∀ ch ∈ ds, ch ≠ ',') →
      ∀ ch ∈ Nat.toDigitsCore 10 fuel n ds, ch ≠ ','
  | 0, _, _, hds => hds
  | fuel + 1, n, ds, hds => by
      have hd : ∀ ch ∈ Nat.digitChar (n % 10) :: ds, ch ≠ ',' := by
        intro ch hch
        rcases List.mem_cons.mp hch with h | h
        · exact h ▸ digitChar_ne_comma (Nat.mod_lt n (by omega))
        · exact hds ch h
      intro ch hch
      rw [Nat.toDigitsCore] at hch
      split at hch
      · exact hd ch hch
      · exact toDigitsCore_ne_comma fuel (n / 10) _ hd ch hch

theorem commaFree_toString_nat (n : Nat) : commaFree (toString n) := by
  intro hmem
  exact toDigitsCore_ne_comma (n + 1) n [] (by simp) ',' hmem rfl

theorem commaFree_memberName {g : String} (hg : commaFree g) (x : Nat)
    : commaFree (memberName g x) := by
  intro hmem
  have h1 : (memberName g x).toList = (g.toList ++ ("-").toList) ++ (toString x).toList := rfl
  rw [h1] at hmem
  rcases List.mem_append.mp hmem with h | h
  · rcases List.mem_append.mp h with h' | h'
    · exact hg h'
    · exact absurd h' (by decide)
  · exact commaFree_toString_nat x h

end Heat

namespace Heat

/-! ### Behaviour of the grow loop -/

theorem growLoop_nil (g : String) (cr : String → Option String) (roe : Bool)
    (lst : List String) (rid : Option String) :
    growLoop g cr roe [] lst rid = ⟨rid, none⟩ := rfl

theorem growLoop_cons_none {g : String} {cr : String → Option String} {x : Nat}
    (roe : Bool) (xs : List Nat) (lst : List String) (rid : Option String)
    (h : cr (memberName g x) = none) :
    growLoop g cr roe (x :: xs) lst rid =
      growLoop g cr roe xs (lst ++ [memberName g x])
        (some (joinComma (lst ++ [memberName g x]))) := by
  simp [growLoop, h]

theorem growLoop_cons_some_true {g : String} {cr : String → Option String} {x : Nat}
    {e : String} (xs : List Nat) (lst : List String) (rid : Option String)
    (h : cr (memberName g x) = some e) :
    growLoop g cr true (x :: xs) lst rid =
      ⟨some (joinComma (lst ++ [memberName g x])), some e⟩ := by
  simp [growLoop, h]

theorem growLoop_cons_some_false {g : String} {cr : String → Option String} {x : Nat}
    {e : String} (xs : List Nat) (lst : List String) (rid : Option String)
    (h : cr (memberName g x) = some e) :
    growLoop g cr false (x :: xs) lst rid =
      growLoop g cr false xs (lst ++ [memberName g x])
        (some (joinComma (lst ++ [memberName g x]))) := by
  simp [growLoop, h]

theorem growLoop_err_roe_false (g : String) (cr : String → Option String) :
    ∀ (xs : List Nat) (lst : List String) (rid : Option String),
      (growLoop g cr false xs lst rid).err = none
  | [], _, _ => rfl
  | x :: xs, lst, rid => by
      cases hcr : cr (memberName g x) with
      | some e =>
          rw [growLoop_cons_some_false xs lst rid hcr]
          exact growLoop_err_roe_false g cr xs _ _
      | none =>
          rw [growLoop_cons_none false xs lst rid hcr]
          exact growLoop_err_roe_false g cr xs _ _

theorem growLoop_rid_of_err_none (g : String) (cr : String → Option String) (roe : Bool) :
    ∀ (xs : List Nat) (lst : List String) (rid : Option String),
      (growLoop g cr roe xs lst rid).err = none → xs ≠ [] →
      (growLoop g cr roe xs lst rid).rid =
        some (joinComma (lst ++ xs.map (memberName g)))
  | [], _, _, _, hne => absurd rfl hne
  | x :: xs, lst, rid, herr, _ => by
      cases hcr : cr (memberName g x) with
      | none =>
          rw [growLoop_cons_none roe xs lst rid hcr] at herr ⊢
          rcases hxs : xs with _ | ⟨x', xs'⟩
          · subst hxs
            simp [growLoop_nil]
          · subst hxs
            rw [growLoop_rid_of_err_none g cr roe _ _ _ herr (List.cons_ne_nil x' xs')]
            simp [List.append_assoc]
      | some e =>
          cases roe with
          | true =>
              rw [growLoop_cons_some_true xs lst rid hcr] at herr
              simp at herr
          | false =>
              rw [growLoop_cons_some_false xs lst rid hcr] at herr ⊢
              rcases hxs : xs with _ | ⟨x', xs'⟩
              · subst hxs
                simp [growLoop_nil]
              · subst hxs
                rw [growLoop_rid_of_err_none g cr false _ _ _ herr (List.cons_ne_nil x' xs')]
                simp [List.append_assoc]

theorem growLoop_fail (g : String) (cr : String → Option String) {j : Nat} {e : String}
    (hj : cr (memberName g j) = some e) :
    ∀ (ys zs : List Nat) (lst : List String) (rid : Option String),
      (∀ i ∈ ys, cr (memberName g i) = none) →
      growLoop g cr true (ys ++ j :: zs) lst rid =
        ⟨some (joinComma (lst ++ (ys ++ [j]).map (memberName g))), some e⟩
  | [], zs, lst, rid, _ => by
      rw [List.nil_append, growLoop_cons_some_true zs lst rid hj]
      simp
  | y :: ys, zs, lst, rid, hok => by
      have hy : cr (memberName g y) = none := hok y (List.mem_cons_self y ys)
      rw [List.cons_append, growLoop_cons_none true (ys ++ j :: zs) lst rid hy,
        growLoop_fail g cr hj ys zs _ _ (fun i hi => hok i (List.mem_cons_of_mem y hi))]
      simp [List.append_assoc]

/-! ### Behaviour of the shrink loop -/

theorem shrinkLoop_cons (dr : String → Option String) (v : String)
    (vs lst : List String) (rid : Option String) :
    shrinkLoop dr (v :: vs) lst rid =
      shrinkLoop dr vs (lst.erase v) (some (joinComma (lst.erase v))) := rfl

theorem shrinkLoop_eq (dr : String → Option String) :
    ∀ (ws lst : List String) (rid : Option String), ws ≠ [] →
      shrinkLoop dr ws lst rid = some (joinComma (List.foldl List.erase lst ws))
  | [], _, _, hne => absurd rfl hne
  | v :: vs, lst, rid, _ => by
      rw [shrinkLoop_cons]
      rcases hvs : vs with _ | ⟨v', vs'⟩
      · simp [shrinkLoop]
      · subst hvs
        rw [shrinkLoop_eq dr (v' :: vs') _ _ (List.cons_ne_nil v' vs')]
        simp

theorem length_foldl_erase :
    ∀ (ws lst : List String), (∀ x, ws.count x ≤ lst.count x) →
      (List.foldl List.erase lst ws).length = lst.length - ws.length
  | [], lst, _ => by simp
  | v :: ws, lst, h => by
      have hv : v ∈ lst := by
        have hcount := h v
        simp only [List.count_cons_self] at hcount
        exact List.count_pos_iff.mp (by omega)
      have hrec : ∀ x, ws.count x ≤ (lst.erase v).count x := by
        intro x
        have hx := h x
        rw [List.count_cons] at hx
        rw [List.count_erase]
        by_cases hvx : v = x
        · subst hvx
          simp at hx ⊢
          omega
        · have hbeq : (v == x) = false := beq_false_of_ne hvx
          rw [hbeq] at hx ⊢
          simp at hx ⊢
          omega
      have hlen : (lst.erase v).length = lst.length - 1 := List.length_erase_of_mem hv
      have hle : 1 ≤ lst.length := List.length_pos.mpr (List.ne_nil_of_mem hv)
      simp only [List.foldl_cons]
      rw [length_foldl_erase ws (lst.erase v) hrec, hlen]
      simp only [List.length_cons]
      omega

theorem foldl_erase_sublist :
    ∀ (ws lst : List String), List.Sublist (List.foldl List.erase lst ws) lst
  | [], lst => List.Sublist.refl lst
  | v :: ws, lst => by
      simp only [List.foldl_cons]
      exact (foldl_erase_sublist ws (lst.erase v)).trans (List.erase_sublist v lst)

theorem foldl_erase_reverse :
    ∀ (b a : List String), (a ++ b).Nodup →
      List.foldl List.erase (a ++ b) b.reverse = a := by
  intro b
  induction b using List.reverseRecOn with
  | nil => intro a _; simp
  | append_singleton bs v ih =>
      intro a hnd
      have hassoc : a ++ (bs ++ [v]) = (a ++ bs) ++ [v] := (List.append_assoc a bs [v]).symm
      rw [hassoc] at hnd
      have hvnotin : v ∉ a ++ bs := by
        intro hv
        have hdisj := (List.nodup_append.mp hnd).2.2
        exact hdisj hv (List.mem_singleton_self v)
      have herase : ((a ++ bs) ++ [v]).erase v = a ++ bs := by
        rw [List.erase_append_right [v] hvnotin]
        simp
      have hnd' : (a ++ bs).Nodup :=
        (List.sublist_append_left (a ++ bs) [v]).nodup hnd
      rw [List.reverse_append, List.reverse_singleton, List.singleton_append,
        List.foldl_cons, hassoc, herase]
      exact ih a hnd'

end Heat

namespace Heat

/-! ### Branch and capacity lemmas for `resize` -/

theorem resize_of_eq {t : Int} {rid : Option String}
    (g : String) (cr dr : String → Option String) (roe : Bool)
    (h : t = ((parseList rid).length : Int)) :
    resize g cr dr roe t rid = ⟨rid, none⟩ := by
  simp only [resize]
  rw [if_pos h]

theorem resize_of_lt {t : Int} {rid : Option String}
    (g : String) (cr dr : String → Option String) (roe : Bool)
    (h : ((parseList rid).length : Int) < t) :
    resize g cr dr roe t rid =
      growLoop g cr roe
        (List.range' (parseList rid).length (t.toNat - (parseList rid).length))
        (parseList rid) rid := by
  simp only [resize]
  rw [if_neg (by omega), if_pos h]

theorem resize_of_gt {t : Int} {rid : Option String}
    (g : String) (cr dr : String → Option String) (roe : Bool)
    (h : t < ((parseList rid).length : Int)) :
    resize g cr dr roe t rid =
      ⟨shrinkLoop dr (pyDropSlice (parseList rid) t).reverse (parseList rid) rid, none⟩ := by
  simp only [resize]
  rw [if_neg (by omega), if_neg (by omega)]

theorem pyDropSlice_of_nonneg {k : Int} (l : List String) (h : 0 ≤ k) :
    pyDropSlice l k = l.drop k.toNat := by
  simp only [pyDropSlice]
  rw [if_pos h]

/-- A successful shrink (`0 ≤ t < capacity`) persists exactly the fold of
`list.remove` over the victims, raising nothing. -/
theorem resize_shrink {t : Int} {rid : Option String}
    (g : String) (cr dr : String → Option String) (roe : Bool)
    (h0 : 0 ≤ t) (ht : t < ((parseList rid).length : Int)) :
    resize g cr dr roe t rid =
      ⟨some (joinComma (List.foldl List.erase (parseList rid)
          ((parseList rid).drop t.toNat).reverse)), none⟩ := by
  rw [resize_of_gt g cr dr roe ht, pyDropSlice_of_nonneg _ h0]
  have hne : ((parseList rid).drop t.toNat).reverse ≠ [] := by
    have : ((parseList rid).drop t.toNat).length = (parseList rid).length - t.toNat :=
      List.length_drop t.toNat (parseList rid)
    intro hh
    have hlen := congrArg List.length hh
    rw [List.length_reverse, this] at hlen
    simp at hlen
    omega
  rw [shrinkLoop_eq dr _ _ _ hne]

/-- A grow that raises no error persists the old members followed by all the
new names in index order. -/
theorem resize_grow_of_err_none {t : Int} {rid : Option String}
    (g : String) (cr dr : String → Option String) (roe : Bool)
    (hlt : ((parseList rid).length : Int) < t)
    (herr : (resize g cr dr roe t rid).err = none) :
    (resize g cr dr roe t rid).rid =
      some (joinComma (parseList rid ++
        (List.range' (parseList rid).length (t.toNat - (parseList rid).length)).map
          (memberName g))) := by
  rw [resize_of_lt g cr dr roe hlt] at herr ⊢
  have hne : List.range' (parseList rid).length (t.toNat - (parseList rid).length) ≠ [] := by
    intro hh
    have hlen := congrArg List.length hh
    rw [List.length_range'] at hlen
    simp at hlen
    omega
  exact growLoop_rid_of_err_none g cr roe _ _ _ herr hne

theorem resize_err_roe_false (g : String) (cr dr : String → Option String)
    (t : Int) (rid : Option String) :
    (resize g cr dr false t rid).err = none := by
  rcases lt_trichotomy t ((parseList rid).length : Int) with h | h | h
  · rw [resize_of_gt g cr dr false h]
  · rw [resize_of_eq g cr dr false h]
  · rw [resize_of_lt g cr dr false h]
    exact growLoop_err_roe_false g cr _ _ _

/-- Every member recorded by a successful resize elsewhere parses back as a
comma-free string, so counting members of the persisted string is exact. -/
theorem parseList_length_resize {t : Int} {rid : Option String}
    (g : String) (cr dr : String → Option String) (roe : Bool)
    (hg : commaFree g) (h1 : 1 ≤ t)
    (herr : (resize g cr dr roe t rid).err = none) :
    ((parseList (resize g cr dr roe t rid).rid).length : Int) = t := by
  rcases lt_trichotomy t ((parseList rid).length : Int) with h | h | h
  · -- shrink
    rw [resize_shrink g cr dr roe (by omega) h]
    have hcounts : ∀ x, (((parseList rid).drop t.toNat).reverse).count x ≤
        (parseList rid).count x := by
      intro x
      rw [List.count_reverse]
      exact (List.drop_sublist t.toNat (parseList rid)).count_le x
    have hlen : (List.foldl List.erase (parseList rid)
        ((parseList rid).drop t.toNat).reverse).length =
        (parseList rid).length - ((parseList rid).drop t.toNat).reverse.length :=
      length_foldl_erase _ _ hcounts
    rw [List.length_reverse, List.length_drop] at hlen
    have hlen' : (List.foldl List.erase (parseList rid)
        ((parseList rid).drop t.toNat).reverse).length = t.toNat := by omega
    have hfree : ∀ s ∈ List.foldl List.erase (parseList rid)
        ((parseList rid).drop t.toNat).reverse, commaFree s := by
      intro s hs
      exact commaFree_of_mem_parseList ((foldl_erase_sublist _ _).mem hs)
    have hne : List.foldl List.erase (parseList rid)
        ((parseList rid).drop t.toNat).reverse ≠ [] := by
      intro hh
      rw [hh] at hlen'
      simp at hlen'
      omega
    simp only [length_parseList_joinComma hne hfree, hlen']
    omega
  · -- no-op
    rw [resize_of_eq g cr dr roe h]
    exact h.symm
  · -- grow
    rw [resize_grow_of_err_none g cr dr roe h herr]
    have hfree : ∀ s ∈ parseList rid ++
        (List.range' (parseList rid).length (t.toNat - (parseList rid).length)).map
          (memberName g), commaFree s := by
      intro s hs
      rcases List.mem_append.mp hs with hmem | hmem
      · exact commaFree_of_mem_parseList hmem
      · rcases List.mem_map.mp hmem with ⟨x, _, rfl⟩
        exact commaFree_memberName hg x
    have hne : parseList rid ++
        (List.range' (parseList rid).length (t.toNat - (parseList rid).length)).map
          (memberName g) ≠ [] := by
      intro hh
      have hlen := congrArg List.length hh
      rw [List.length_append, List.length_map, List.length_range'] at hlen
      simp at hlen
      omega
    rw [length_parseList_joinComma hne hfree]
    rw [List.length_append, List.length_map, List.length_range']
    omega

end Heat

namespace Heat

/-! ### Branch lemmas for `adjust` -/

theorem adjust_of_inprogress {now : Nat} {props : ASGProps} {st : ASGState}
    (g : String) (cr dr : String → Option String) (roe : Bool)
    (adjustment : Int) (adjustment_type : String)
    (h : cooldown_inprogress now props.Cooldown st.metadata = true) :
    adjust now g props cr dr roe adjustment adjustment_type st = (st, none) := by
  simp only [adjust]
  rw [if_pos h]

theorem adjust_of_not_inprogress {now : Nat} {props : ASGProps} {st : ASGState}
    (g : String) (cr dr : String → Option String) (roe : Bool)
    (adjustment : Int) (adjustment_type : String)
    (h : cooldown_inprogress now props.Cooldown st.metadata = false) :
    adjust now g props cr dr roe adjustment adjustment_type st =
      adjustCore now g props cr dr roe adjustment adjustment_type st := by
  simp only [adjust]
  rw [if_neg (by simp [h])]

theorem adjustCore_of_bounds {now : Nat} {props : ASGProps} {st : ASGState}
    (g : String) (cr dr : String → Option String) (roe : Bool)
    (adjustment : Int) (adjustment_type : String)
    (h : newCapacityFor adjustment_type adjustment
          ((parseList st.resource_id).length : Int) > props.MaxSize ∨
        newCapacityFor adjustment_type adjustment
          ((parseList st.resource_id).length : Int) < props.MinSize) :
    adjustCore now g props cr dr roe adjustment adjustment_type st = (st, none) := by
  simp only [adjustCore]
  rcases h with h | h
  · rw [if_pos h]
  · by_cases hmax : newCapacityFor adjustment_type adjustment
        ((parseList st.resource_id).length : Int) > props.MaxSize
    · rw [if_pos hmax]
    · rw [if_neg hmax, if_pos h]

theorem adjustCore_of_nochange {now : Nat} {props : ASGProps} {st : ASGState}
    (g : String) (cr dr : String → Option String) (roe : Bool)
    (adjustment : Int) (adjustment_type : String)
    (h : newCapacityFor adjustment_type adjustment
          ((parseList st.resource_id).length : Int) =
        ((parseList st.resource_id).length : Int)) :
    adjustCore now g props cr dr roe adjustment adjustment_type st = (st, none) := by
  simp only [adjustCore]
  by_cases hmax : newCapacityFor adjustment_type adjustment
      ((parseList st.resource_id).length : Int) > props.MaxSize
  · rw [if_pos hmax]
  · rw [if_neg hmax]
    by_cases hmin : newCapacityFor adjustment_type adjustment
        ((parseList st.resource_id).length : Int) < props.MinSize
    · rw [if_pos hmin]
    · rw [if_neg hmin, if_pos h]

theorem adjustCore_resize_err_none {now : Nat} {props : ASGProps} {st : ASGState}
    (g : String) (cr dr : String → Option String) (roe : Bool)
    (adjustment : Int) (adjustment_type : String)
    (hmax : ¬ newCapacityFor adjustment_type adjustment
        ((parseList st.resource_id).length : Int) > props.MaxSize)
    (hmin : ¬ newCapacityFor adjustment_type adjustment
        ((parseList st.resource_id).length : Int) < props.MinSize)
    (hne : newCapacityFor adjustment_type adjustment
        ((parseList st.resource_id).length : Int) ≠
        ((parseList st.resource_id).length : Int))
    (herr : (resize g cr dr roe
        (newCapacityFor adjustment_type adjustment
          ((parseList st.resource_id).length : Int)) st.resource_id).err = none) :
    adjustCore now g props cr dr roe adjustment adjustment_type st =
      ({ resource_id := (resize g cr dr roe
            (newCapacityFor adjustment_type adjustment
              ((parseList st.resource_id).length : Int)) st.resource_id).rid,
         metadata := cooldown_timestamp now
           (adjustment_type ++ " : " ++ toString adjustment) }, none) := by
  simp only [adjustCore]
  rw [if_neg hmax, if_neg hmin, if_neg hne, herr]

theorem adjustCore_resize_err_some {now : Nat} {props : ASGProps} {st : ASGState}
    {e : String}
    (g : String) (cr dr : String → Option String) (roe : Bool)
    (adjustment : Int) (adjustment_type : String)
    (hmax : ¬ newCapacityFor adjustment_type adjustment
        ((parseList st.resource_id).length : Int) > props.MaxSize)
    (hmin : ¬ newCapacityFor adjustment_type adjustment
        ((parseList st.resource_id).length : Int) < props.MinSize)
    (hne : newCapacityFor adjustment_type adjustment
        ((parseList st.resource_id).length : Int) ≠
        ((parseList st.resource_id).length : Int))
    (herr : (resize g cr dr roe
        (newCapacityFor adjustment_type adjustment
          ((parseList st.resource_id).length : Int)) st.resource_id).err = some e) :
    adjustCore now g props cr dr roe adjustment adjustment_type st =
      ({ st with resource_id := (resize g cr dr roe
            (newCapacityFor adjustment_type adjustment
              ((parseList st.resource_id).length : Int)) st.resource_id).rid }, some e) := by
  simp only [adjustCore]
  rw [if_neg hmax, if_neg hmin, if_neg hne, herr]

end Heat

namespace Heat

/-! ### Claim theorems -/

/-- C1: the claim says the member list read back from a persisted
MembershipSet is ordered by the numeric index embedded in each name.  It is
not: `sorted` orders the raw strings lexicographically, so for the persisted
set holding indices 0..10 the parse order places `g-10` between `g-1` and
`g-2` instead of last.  This contradicts the source's own stated intent
(`# shrink (kill largest numbered first)`). -/
theorem c1_parse_order_is_lexicographic_not_numeric :
    parseList (some (joinComma ((List.range 11).map (memberName ("g")))))
      = ["g-0", "g-1", "g-10", "g-2", "g-3", "g-4", "g-5", "g-6", "g-7", "g-8", "g-9"] ∧
    parseList (some (joinComma ((List.range 11).map (memberName ("g")))))
      ≠ (List.range 11).map (memberName ("g")) :=
  ⟨by decide, by decide⟩

/-- C2: the claim says indices are contiguous from 0 after any successful
sequence of resizes.  Starting empty, `resize 11` then `resize 3` (all
external calls succeeding) leaves exactly the members `g-0`, `g-1` and
`g-10` — indices {0, 1, 10} with a gap — because the shrink victims are
chosen from the lexicographically sorted list. -/
theorem c2_contiguity_violated_at_eleven_members :
    (resize ("g") (fun _ => none) (fun _ => none) false 3
        ((resize ("g") (fun _ => none) (fun _ => none) false 11 none).rid)).rid
      = some ("g-0,g-1,g-10") ∧
    (resize ("g") (fun _ => none) (fun _ => none) false 3
        ((resize ("g") (fun _ => none) (fun _ => none) false 11 none).rid)).rid
      ≠ some ("g-0,g-1,g-2") :=
  ⟨by decide, by decide⟩

/-- C5: an adjustment whose computed target exceeds MaxSize or falls below
MinSize is rejected outright: `adjust` returns with no exception, the state
(membership and metadata alike) is exactly what it was, and no clamped
resize happens. -/
theorem c5_bounds_rejection (now : Nat) (g : String) (props : ASGProps)
    (cr dr : String → Option String) (roe : Bool)
    (adjustment : Int) (adjustment_type : String) (st : ASGState)
    (h : newCapacityFor adjustment_type adjustment
          ((parseList st.resource_id).length : Int) > props.MaxSize ∨
        newCapacityFor adjustment_type adjustment
          ((parseList st.resource_id).length : Int) < props.MinSize) :
    adjust now g props cr dr roe adjustment adjustment_type st = (st, none) := by
  cases hcd : cooldown_inprogress now props.Cooldown st.metadata with
  | true => exact adjust_of_inprogress g cr dr roe adjustment adjustment_type hcd
  | false =>
      rw [adjust_of_not_inprogress g cr dr roe adjustment adjustment_type hcd]
      exact adjustCore_of_bounds g cr dr roe adjustment adjustment_type h

/-- Witness for C5: the spec's own example — max 4, current capacity 3,
`adjust(Delta, +2)` computes 5 > 4 and leaves capacity 3. -/
theorem c5_witness :
    (newCapacityFor ("ChangeInCapacity") 2
        ((parseList (some ("g-0,g-1,g-2"))).length : Int) >
        (⟨1, 4, none, none⟩ : ASGProps).MaxSize ∨
      newCapacityFor ("ChangeInCapacity") 2
        ((parseList (some ("g-0,g-1,g-2"))).length : Int) <
        (⟨1, 4, none, none⟩ : ASGProps).MinSize) ∧
    adjust 0 ("g") ⟨1, 4, none, none⟩ (fun _ => none) (fun _ => none) false 2
        ("ChangeInCapacity") ⟨some ("g-0,g-1,g-2"), none⟩ =
      (⟨some ("g-0,g-1,g-2"), none⟩, none) :=
  ⟨Or.inl (by decide),
    c5_bounds_rejection 0 ("g") ⟨1, 4, none, none⟩ (fun _ => none) (fun _ => none)
      false 2 ("ChangeInCapacity") ⟨some ("g-0,g-1,g-2"), none⟩ (Or.inl (by decide))⟩

/-- C7: during a shrink the result of every `destroy` call is discarded:
whatever the destruction oracle `dr` answers, `resize` removes the victims
from the recorded set, persists the removal, and finishes without
surfacing any error. -/
theorem c7_shrink_swallows_destroy_failure (g : String) (cr dr : String → Option String)
    (roe : Bool) (t : Int) (rid : Option String)
    (h0 : 0 ≤ t) (ht : t < ((parseList rid).length : Int))
    (hnd : (parseList rid).Nodup) :
    resize g cr dr roe t rid =
      ⟨some (joinComma ((parseList rid).take t.toNat)), none⟩ := by
  rw [resize_shrink g cr dr roe h0 ht]
  have hsplit : (parseList rid).take t.toNat ++ (parseList rid).drop t.toNat =
      parseList rid := List.take_append_drop t.toNat (parseList rid)
  have hstep := foldl_erase_reverse ((parseList rid).drop t.toNat)
    ((parseList rid).take t.toNat) (by rw [hsplit]; exact hnd)
  rw [hsplit] at hstep
  rw [hstep]

/-- Witness for C7: shrinking capacity 3 to 1 with a destruction oracle
that fails on every member still records exactly the lowest member and no
error. -/
theorem c7_witness :
    ((0 : Int) ≤ 1 ∧ (1 : Int) < ((parseList (some ("g-0,g-1,g-2"))).length : Int) ∧
      (parseList (some ("g-0,g-1,g-2"))).Nodup) ∧
    resize ("g") (fun _ => none) (fun _ => some ("destroy failed")) false 1
        (some ("g-0,g-1,g-2")) =
      ⟨some (joinComma ((parseList (some ("g-0,g-1,g-2"))).take (1 : Int).toNat)), none⟩ :=
  ⟨⟨by decide, by decide, by decide⟩,
    c7_shrink_swallows_destroy_failure ("g") (fun _ => none)
      (fun _ => some ("destroy failed")) false 1 (some ("g-0,g-1,g-2"))
      (by decide) (by decide) (by decide)⟩

end Heat

namespace Heat

theorem foldl_erase_self (lst : List String) :
    List.foldl List.erase lst lst.reverse = [] := by
  have hlen := length_foldl_erase lst.reverse lst
    (fun x => by rw [List.count_reverse])
  rw [List.length_reverse] at hlen
  have hz : (List.foldl List.erase lst lst.reverse).length = 0 := by omega
  exact List.length_eq_zero.mp hz

/-- C6: with a cooldown record `(ts, r)` present, an `adjust` arriving
before the window has elapsed is suppressed — it returns success with the
whole state untouched — while an `adjust` arriving once at least the window
has elapsed is not suppressed and proceeds exactly as the post-cooldown
computation (`adjustCore`) prescribes.  `is_older_than` is modelled from
the spec (see its definition). -/
theorem c6_cooldown_suppression (now ts : Nat) (r : String) (g : String)
    (props : ASGProps) (cr dr : String → Option String) (roe : Bool)
    (adjustment : Int) (adjustment_type : String) (st : ASGState)
    (hmeta : st.metadata = some (ts, r)) (hts : ts ≤ now) :
    ((now : Int) - (ts : Int) < cooldownWindow props.Cooldown →
      adjust now g props cr dr roe adjustment adjustment_type st = (st, none)) ∧
    (cooldownWindow props.Cooldown ≤ (now : Int) - (ts : Int) →
      adjust now g props cr dr roe adjustment adjustment_type st =
        adjustCore now g props cr dr roe adjustment adjustment_type st) := by
  constructor
  · intro hlt
    apply adjust_of_inprogress
    rw [hmeta]
    have hw : cooldownWindow props.Cooldown ≠ 0 := by
      intro hz
      rw [hz] at hlt
      omega
    have hold : is_older_than now ts (cooldownWindow props.Cooldown) = false := by
      simp only [is_older_than, decide_eq_false_iff_not]
      omega
    simp only [cooldown_inprogress]
    rw [if_pos hw, hold]
    rfl
  · intro hge
    apply adjust_of_not_inprogress
    rw [hmeta]
    simp only [cooldown_inprogress]
    by_cases hw : cooldownWindow props.Cooldown ≠ 0
    · have hold : is_older_than now ts (cooldownWindow props.Cooldown) = true := by
        simp only [is_older_than, decide_eq_true_eq]
        omega
      rw [if_pos hw, hold]
      rfl
    · rw [if_neg hw]

/-- Witness for C6: window 300, record at ts 100 — a call at 200 (elapsed
100 < 300) is suppressed and leaves the state unchanged; at 400 the same
call is not suppressed (elapsed 300 ≥ 300) and behaves as the gate-free
body. -/
theorem c6_witness :
    adjust 200 ("g") ⟨1, 5, some 300, none⟩ (fun _ => none) (fun _ => none) false 1
        ("ChangeInCapacity") ⟨some ("g-0"), some (100, "start")⟩ =
      (⟨some ("g-0"), some (100, "start")⟩, none) ∧
    adjust 400 ("g") ⟨1, 5, some 300, none⟩ (fun _ => none) (fun _ => none) false 1
        ("ChangeInCapacity") ⟨some ("g-0"), some (100, "start")⟩ =
      adjustCore 400 ("g") ⟨1, 5, some 300, none⟩ (fun _ => none) (fun _ => none) false 1
        ("ChangeInCapacity") ⟨some ("g-0"), some (100, "start")⟩ :=
  ⟨(c6_cooldown_suppression 200 100 ("start") ("g") ⟨1, 5, some 300, none⟩
      (fun _ => none) (fun _ => none) false 1 ("ChangeInCapacity")
      ⟨some ("g-0"), some (100, "start")⟩ rfl (by decide)).1 (by decide),
    (c6_cooldown_suppression 400 100 ("start") ("g") ⟨1, 5, some 300, none⟩
      (fun _ => none) (fun _ => none) false 1 ("ChangeInCapacity")
      ⟨some ("g-0"), some (100, "start")⟩ rfl (by decide)).2 (by decide)⟩

/-- C8: a second `resize` to the same target is a pure no-op on the
recorded membership: provided the first call raised no error, the second
call returns the first call's persisted `resource_id` unchanged and raises
nothing.  This holds for every target `k ≥ 0`, including the degenerate
`k = 0` whose persisted form is the empty string. -/
theorem c8_resize_idempotent (g : String) (cr dr : String → Option String) (roe : Bool)
    (k : Int) (rid : Option String)
    (hg : commaFree g) (hk : 0 ≤ k)
    (herr : (resize g cr dr roe k rid).err = none) :
    resize g cr dr roe k (resize g cr dr roe k rid).rid =
      ⟨(resize g cr dr roe k rid).rid, none⟩ := by
  by_cases h1 : 1 ≤ k
  · have hcap := parseList_length_resize g cr dr roe hg h1 herr
    exact resize_of_eq g cr dr roe hcap.symm
  · have hk0 : k = 0 := by omega
    subst hk0
    by_cases hz : (parseList rid).length = 0
    · have h0 : (0 : Int) = ((parseList rid).length : Int) := by
        rw [hz]
        rfl
      rw [resize_of_eq g cr dr roe h0]
      exact resize_of_eq g cr dr roe h0
    · have hpos : (0 : Int) < ((parseList rid).length : Int) := by omega
      rw [resize_shrink g cr dr roe le_rfl hpos]
      dsimp only
      simp only [Int.toNat_zero, List.drop_zero]
      rw [foldl_erase_self]
      have hpos2 : (0 : Int) < ((parseList (some (joinComma []))).length : Int) := by decide
      rw [resize_shrink g cr dr roe le_rfl hpos2]
      simp only [Int.toNat_zero, List.drop_zero]
      rw [foldl_erase_self]

/-- Witness for C8: growing an empty group to 2 and repeating the call
leaves the recorded membership `g-0,g-1` untouched. -/
theorem c8_witness :
    (commaFree ("g") ∧ (0 : Int) ≤ 2 ∧
      (resize ("g") (fun _ => none) (fun _ => none) false 2 none).err = none) ∧
    resize ("g") (fun _ => none) (fun _ => none) false 2
        ((resize ("g") (fun _ => none) (fun _ => none) false 2 none).rid) =
      ⟨(resize ("g") (fun _ => none) (fun _ => none) false 2 none).rid, none⟩ :=
  ⟨⟨by decide, by decide, by decide⟩,
    c8_resize_idempotent ("g") (fun _ => none) (fun _ => none) false 2 none
      (by decide) (by decide) (by decide)⟩

/-- C10: the cooldown record is left untouched on every path of `adjust`
that returns without resizing — suppression, bounds rejection, and
no-change — and whenever the record does change, the call was on the
resize path (not suppressed, target within bounds and different from the
current capacity) and the record is exactly the fresh stamp. -/
theorem c10_cooldown_record_frame (now : Nat) (g : String) (props : ASGProps)
    (cr dr : String → Option String) (roe : Bool)
    (adjustment : Int) (adjustment_type : String) (st : ASGState) :
    (cooldown_inprogress now props.Cooldown st.metadata = true →
      adjust now g props cr dr roe adjustment adjustment_type st = (st, none)) ∧
    ((newCapacityFor adjustment_type adjustment
          ((parseList st.resource_id).length : Int) > props.MaxSize ∨
      newCapacityFor adjustment_type adjustment
          ((parseList st.resource_id).length : Int) < props.MinSize) →
      (adjust now g props cr dr roe adjustment adjustment_type st).1.metadata =
        st.metadata) ∧
    (newCapacityFor adjustment_type adjustment
        ((parseList st.resource_id).length : Int) =
        ((parseList st.resource_id).length : Int) →
      (adjust now g props cr dr roe adjustment adjustment_type st).1.metadata =
        st.metadata) ∧
    ((adjust now g props cr dr roe adjustment adjustment_type st).1.metadata ≠
        st.metadata →
      cooldown_inprogress now props.Cooldown st.metadata = false ∧
      newCapacityFor adjustment_type adjustment
        ((parseList st.resource_id).length : Int) ≤ props.MaxSize ∧
      props.MinSize ≤ newCapacityFor adjustment_type adjustment
        ((parseList st.resource_id).length : Int) ∧
      newCapacityFor adjustment_type adjustment
        ((parseList st.resource_id).length : Int) ≠
        ((parseList st.resource_id).length : Int) ∧
      (adjust now g props cr dr roe adjustment adjustment_type st).1.metadata =
        cooldown_timestamp now (adjustment_type ++ " : " ++ toString adjustment)) := by
  refine ⟨?_, ?_, ?_, ?_⟩
  · intro h
    exact adjust_of_inprogress g cr dr roe adjustment adjustment_type h
  · intro h
    cases hcd : cooldown_inprogress now props.Cooldown st.metadata with
    | true => rw [adjust_of_inprogress g cr dr roe adjustment adjustment_type hcd]
    | false =>
        rw [adjust_of_not_inprogress g cr dr roe adjustment adjustment_type hcd,
          adjustCore_of_bounds g cr dr roe adjustment adjustment_type h]
  · intro h
    cases hcd : cooldown_inprogress now props.Cooldown st.metadata with
    | true => rw [adjust_of_inprogress g cr dr roe adjustment adjustment_type hcd]
    | false =>
        rw [adjust_of_not_inprogress g cr dr roe adjustment adjustment_type hcd,
          adjustCore_of_nochange g cr dr roe adjustment adjustment_type h]
  · intro hne
    cases hcd : cooldown_inprogress now props.Cooldown st.metadata with
    | true =>
        rw [adjust_of_inprogress g cr dr roe adjustment adjustment_type hcd] at hne
        exact absurd rfl hne
    | false =>
        rw [adjust_of_not_inprogress g cr dr roe adjustment adjustment_type hcd] at hne ⊢
        by_cases hb : newCapacityFor adjustment_type adjustment
            ((parseList st.resource_id).length : Int) > props.MaxSize ∨
            newCapacityFor adjustment_type adjustment
              ((parseList st.resource_id).length : Int) < props.MinSize
        · rw [adjustCore_of_bounds g cr dr roe adjustment adjustment_type hb] at hne
          exact absurd rfl hne
        · push_neg at hb
          by_cases hc : newCapacityFor adjustment_type adjustment
              ((parseList st.resource_id).length : Int) =
              ((parseList st.resource_id).length : Int)
          · rw [adjustCore_of_nochange g cr dr roe adjustment adjustment_type hc] at hne
            exact absurd rfl hne
          · cases herr : (resize g cr dr roe
                (newCapacityFor adjustment_type adjustment
                  ((parseList st.resource_id).length : Int)) st.resource_id).err with
            | some e =>
                rw [adjustCore_resize_err_some g cr dr roe adjustment adjustment_type
                  (by omega) (by omega) hc herr] at hne
                simp at hne
            | none =>
                rw [adjustCore_resize_err_none g cr dr roe adjustment adjustment_type
                  (by omega) (by omega) hc herr] at hne ⊢
                exact ⟨rfl, by omega, by omega, hc, rfl⟩

/-- Witness for C10: a suppressed call (window 300, elapsed 100) leaves the
record untouched, and a successful delta adjustment stamps the record with
the new timestamp and reason. -/
theorem c10_witness :
    (adjust 200 ("g") ⟨0, 5, some 300, none⟩ (fun _ => none) (fun _ => none) false 1
        ("ChangeInCapacity") ⟨some ("g-0"), some (100, "start")⟩ =
      (⟨some ("g-0"), some (100, "start")⟩, none)) ∧
    (adjust 400 ("g") ⟨0, 5, some 300, none⟩ (fun _ => none) (fun _ => none) false 1
        ("ChangeInCapacity") ⟨some ("g-0"), some (100, "start")⟩).1.metadata =
      cooldown_timestamp 400 ("ChangeInCapacity" ++ " : " ++ toString (1 : Int)) :=
  ⟨(c10_cooldown_record_frame 200 ("g") ⟨0, 5, some 300, none⟩ (fun _ => none)
      (fun _ => none) false 1 ("ChangeInCapacity")
      ⟨some ("g-0"), some (100, "start")⟩).1 (by decide),
    ((c10_cooldown_record_frame 400 ("g") ⟨0, 5, some 300, none⟩ (fun _ => none)
      (fun _ => none) false 1 ("ChangeInCapacity")
      ⟨some ("g-0"), some (100, "start")⟩).2.2.2 (by decide)).2.2.2.2⟩

end Heat

namespace Heat

theorem joinComma_singleton (s : String) : joinComma [s] = s := rfl

theorem pySplit_commaFree {s : String} (h : commaFree s) : pySplit s = [s] := by
  unfold pySplit
  rw [splitCharList_of_not_mem h]
  rfl

theorem parseList_commaFree {s : String} (h : commaFree s) : parseList (some s) = [s] := by
  show List.insertionSort pyLe (pySplit s) = [s]
  rw [pySplit_commaFree h]
  rfl

/-- C3: the claim says a PercentDelta adjustment truncates toward zero.
It does not: Python-2 `/` floors toward negative infinity.  At capacity 3
with a -50 percent adjustment the code computes 3 + floor(-1.5) = 1, while
truncation toward zero would give 3 + (-1) = 2, so the resulting recorded
capacity (1) differs from the claimed target. -/
theorem c3_counterexample :
    ((parseList (adjust 0 ("g") ⟨1, 10, none, none⟩ (fun _ => none) (fun _ => none)
        false (-50) ("PercentChangeInCapacity")
        ⟨some ("g-0,g-1,g-2"), none⟩).1.resource_id).length : Int) ≠
      3 + Int.tdiv (3 * (-50)) 100 := by
  decide

/-- C3 (amended): a PercentDelta adjustment computes the new target as
`current + fdiv(current * percent, 100)` with floor division (toward
negative infinity, Python-2 `/`), which agrees with truncation toward zero
only when `current * percent ≥ 0`; on the applying path the recorded
capacity afterwards equals that floored target. -/
theorem c3_percent_uses_floor_division (now : Nat) (g : String) (props : ASGProps)
    (cr dr : String → Option String) (st : ASGState) (p : Int)
    (hg : commaFree g)
    (hcd : cooldown_inprogress now props.Cooldown st.metadata = false)
    (hmax : ((parseList st.resource_id).length : Int) +
        Int.fdiv (((parseList st.resource_id).length : Int) * p) 100 ≤ props.MaxSize)
    (hmin : props.MinSize ≤ ((parseList st.resource_id).length : Int) +
        Int.fdiv (((parseList st.resource_id).length : Int) * p) 100)
    (hne : ((parseList st.resource_id).length : Int) +
        Int.fdiv (((parseList st.resource_id).length : Int) * p) 100 ≠
        ((parseList st.resource_id).length : Int))
    (h1 : 1 ≤ ((parseList st.resource_id).length : Int) +
        Int.fdiv (((parseList st.resource_id).length : Int) * p) 100) :
    ((parseList (adjust now g props cr dr false p ("PercentChangeInCapacity")
        st).1.resource_id).length : Int) =
      ((parseList st.resource_id).length : Int) +
        Int.fdiv (((parseList st.resource_id).length : Int) * p) 100 := by
  have hpct : newCapacityFor ("PercentChangeInCapacity") p
      ((parseList st.resource_id).length : Int) =
      ((parseList st.resource_id).length : Int) +
        Int.fdiv (((parseList st.resource_id).length : Int) * p) 100 := by
    unfold newCapacityFor
    rw [if_neg (by decide), if_neg (by decide)]
  have herr : (resize g cr dr false
      (newCapacityFor ("PercentChangeInCapacity") p
        ((parseList st.resource_id).length : Int)) st.resource_id).err = none :=
    resize_err_roe_false g cr dr _ _
  rw [adjust_of_not_inprogress g cr dr false p ("PercentChangeInCapacity") hcd,
    adjustCore_resize_err_none g cr dr false p ("PercentChangeInCapacity")
      (by rw [hpct]; omega) (by rw [hpct]; omega) (by rw [hpct]; exact hne) herr]
  have hcap := parseList_length_resize g cr dr false hg (by rw [hpct]; omega) herr
  rw [← hpct]
  exact hcap

/-- Witness for C3 (amended): the spec's own example — capacity 4,
`adjust(PercentDelta, 50)` yields recorded capacity 6. -/
theorem c3_witness :
    (commaFree ("g") ∧
      cooldown_inprogress 0 (⟨1, 10, none, none⟩ : ASGProps).Cooldown
        (⟨some ("g-0,g-1,g-2,g-3"), none⟩ : ASGState).metadata = false ∧
      ((parseList (some ("g-0,g-1,g-2,g-3"))).length : Int) +
        Int.fdiv (((parseList (some ("g-0,g-1,g-2,g-3"))).length : Int) * 50) 100 = 6) ∧
    ((parseList (adjust 0 ("g") ⟨1, 10, none, none⟩ (fun _ => none) (fun _ => none)
        false 50 ("PercentChangeInCapacity")
        ⟨some ("g-0,g-1,g-2,g-3"), none⟩).1.resource_id).length : Int) =
      ((parseList (some ("g-0,g-1,g-2,g-3"))).length : Int) +
        Int.fdiv (((parseList (some ("g-0,g-1,g-2,g-3"))).length : Int) * 50) 100 :=
  ⟨⟨by decide, by decide, by decide⟩,
    c3_percent_uses_floor_division 0 ("g") ⟨1, 10, none, none⟩ (fun _ => none)
      (fun _ => none) ⟨some ("g-0,g-1,g-2,g-3"), none⟩ 50
      (by decide) (by decide) (by decide) (by decide) (by decide) (by decide)⟩

/-- C4: the claim says a member's name is persisted only after its creation
succeeds, so an aborted failFast grow records exactly the successfully
created members.  It is false: growing an empty group to 1 with a creation
oracle that always fails aborts with the nested error, yet the recorded
set contains the failed member `g-0`. -/
theorem c4_counterexample :
    (resize ("g") (fun _ => some ("boom")) (fun _ => none) true 1 none).err =
      some ("boom") ∧
    parseList (resize ("g") (fun _ => some ("boom")) (fun _ => none) true 1 none).rid =
      ["g-0"] :=
  ⟨by decide, by decide⟩

/-- C4 (amended): during growth each new name is appended and persisted
immediately before its creation is attempted; with failFast set, the first
creation failure (at index `j`, after the earlier new indices succeeded)
aborts `resize` with the nested failure, and the recorded set then holds
the prior members, the successfully created new members, and the failed
member `j` itself. -/
theorem c4_grow_records_failed_member (g : String) (cr dr : String → Option String)
    (rid : Option String) (t : Int) (j : Nat) (e : String)
    (hcap : ((parseList rid).length : Int) < t)
    (hj : (parseList rid).length ≤ j) (hjt : (j : Int) < t)
    (hfail : cr (memberName g j) = some e)
    (hok : ∀ i, (parseList rid).length ≤ i → i < j → cr (memberName g i) = none) :
    resize g cr dr true t rid =
      ⟨some (joinComma (parseList rid ++
        (List.range' (parseList rid).length (j + 1 - (parseList rid).length)).map
          (memberName g))), some e⟩ := by
  have hjt' : j < t.toNat := by omega
  have hc : (parseList rid).length ≤ j := hj
  have hsplit : List.range' (parseList rid).length (t.toNat - (parseList rid).length) =
      List.range' (parseList rid).length (j - (parseList rid).length) ++
        j :: List.range' (j + 1) (t.toNat - (j + 1)) := by
    have h1 := List.range'_append_1 (parseList rid).length (j - (parseList rid).length)
      (t.toNat - j)
    rw [show (parseList rid).length + (j - (parseList rid).length) = j from by omega] at h1
    rw [show (t.toNat - j) + (j - (parseList rid).length) =
      t.toNat - (parseList rid).length from by omega] at h1
    rw [← h1]
    congr 1
    rw [show t.toNat - j = (t.toNat - (j + 1)) + 1 from by omega, List.range'_succ]
  have hok' : ∀ i ∈ List.range' (parseList rid).length (j - (parseList rid).length),
      cr (memberName g i) = none := by
    intro i hi
    rw [List.mem_range'_1] at hi
    exact hok i hi.1 (by omega)
  have h3 : List.range' (parseList rid).length (j - (parseList rid).length) ++ [j] =
      List.range' (parseList rid).length (j + 1 - (parseList rid).length) := by
    have h2 := List.range'_append_1 (parseList rid).length (j - (parseList rid).length) 1
    rw [show (parseList rid).length + (j - (parseList rid).length) = j from by omega] at h2
    rw [show List.range' j 1 = [j] from rfl] at h2
    rw [show 1 + (j - (parseList rid).length) = j + 1 - (parseList rid).length
      from by omega] at h2
    exact h2
  rw [resize_of_lt g cr dr true hcap, hsplit,
    growLoop_fail g cr hfail _ _ _ _ hok', h3]

/-- Witness for C4 (amended): group at one member, growing to 3 with the
creation of `g-1` failing — the abort records `g-0,g-1` (the failed member
included) and carries the nested error. -/
theorem c4_witness :
    ((fun name => if name = ("g-1") then some ("boom") else none) (memberName ("g") 1) =
      some ("boom") ∧
      ((parseList (some ("g-0"))).length : Int) < 3) ∧
    resize ("g") (fun name => if name = ("g-1") then some ("boom") else none)
        (fun _ => none) true 3 (some ("g-0")) =
      ⟨some (joinComma (parseList (some ("g-0")) ++
        (List.range' (parseList (some ("g-0"))).length
          (1 + 1 - (parseList (some ("g-0"))).length)).map (memberName ("g")))),
        some ("boom")⟩ :=
  ⟨⟨by decide, by decide⟩,
    c4_grow_records_failed_member ("g")
      (fun name => if name = ("g-1") then some ("boom") else none) (fun _ => none)
      (some ("g-0")) 3 1 ("boom") (by decide) (by decide) (by decide) (by decide)
      (fun i h1 h2 => by
        have hlen : (parseList (some ("g-0"))).length = 1 := by decide
        rw [hlen] at h1
        exact absurd (Nat.lt_of_lt_of_le h2 h1) (Nat.lt_irrefl i))⟩

end Heat

namespace Heat

/-- C9: the claim says handle_create uses DesiredCapacity as the initial
target whenever it is configured.  It does not: the source tests the
property's truthiness, so a configured DesiredCapacity of 0 falls back to
MinSize.  With MinSize 1, MaxSize 5 and DesiredCapacity 0, handle_create
creates one member (`g-0`), whereas an ExactCapacity adjustment to the
configured value 0 would have left the membership empty (rejected below
MinSize). -/
theorem c9_counterexample :
    (handle_create 0 ("g") ⟨1, 5, none, some 0⟩ (fun _ => none) (fun _ => none)
        ⟨none, none⟩).1.resource_id = some ("g-0") ∧
    (adjust 0 ("g") ⟨1, 5, none, some 0⟩ (fun _ => none) (fun _ => none) true 0
        ("ExactCapacity") ⟨none, none⟩).1.resource_id = none :=
  ⟨by decide, by decide⟩

/-- C9 (amended): handle_create uses DesiredCapacity as the initial target
when it is configured and nonzero, and MinSize otherwise (including the
configured-zero case), applying it through an ExactCapacity adjustment
with failFast; in particular with MinSize 1, MaxSize 5 and no
DesiredCapacity it produces capacity 1 whose single member has index 0. -/
theorem c9_initial_capacity :
    (∀ (now : Nat) (g : String) (props : ASGProps) (cr dr : String → Option String)
        (st : ASGState) (d : Int), props.DesiredCapacity = some d → d ≠ 0 →
        handle_create now g props cr dr st =
          adjust now g props cr dr true d ("ExactCapacity") st) ∧
    (∀ (now : Nat) (g : String) (props : ASGProps) (cr dr : String → Option String)
        (st : ASGState), props.DesiredCapacity = none ∨ props.DesiredCapacity = some 0 →
        handle_create now g props cr dr st =
          adjust now g props cr dr true props.MinSize ("ExactCapacity") st) ∧
    (∀ (now : Nat) (g : String) (cr dr : String → Option String),
        commaFree g → cr (memberName g 0) = none →
        (handle_create now g ⟨1, 5, none, none⟩ cr dr ⟨none, none⟩).1.resource_id =
          some (memberName g 0) ∧
        parseList (handle_create now g ⟨1, 5, none, none⟩ cr dr
          ⟨none, none⟩).1.resource_id = [memberName g 0]) := by
  refine ⟨?_, ?_, ?_⟩
  · intro now g props cr dr st d hdc hd0
    unfold handle_create
    rw [hdc]
    simp only [if_neg hd0]
  · intro now g props cr dr st hdc
    unfold handle_create
    rcases hdc with hdc | hdc
    · rw [hdc]
    · rw [hdc]
      simp
  · intro now g cr dr hg hcr
    have hres : resize g cr dr true 1 none = ⟨some (memberName g 0), none⟩ := by
      rw [resize_of_lt g cr dr true (by decide)]
      show growLoop g cr true [0] [] none = _
      rw [growLoop_cons_none true [] [] none hcr, growLoop_nil, List.nil_append,
        joinComma_singleton]
    have hkey : newCapacityFor ("ExactCapacity") 1
        ((parseList (⟨none, none⟩ : ASGState).resource_id).length : Int) = 1 := by
      decide
    have herr : (resize g cr dr true (newCapacityFor ("ExactCapacity") 1
        ((parseList (⟨none, none⟩ : ASGState).resource_id).length : Int))
        (⟨none, none⟩ : ASGState).resource_id).err = none := by
      rw [hkey, hres]
    have hstep : handle_create now g ⟨1, 5, none, none⟩ cr dr ⟨none, none⟩ =
        adjustCore now g ⟨1, 5, none, none⟩ cr dr true 1 ("ExactCapacity")
          ⟨none, none⟩ := by
      show adjust now g ⟨1, 5, none, none⟩ cr dr true 1 ("ExactCapacity")
        ⟨none, none⟩ = _
      exact adjust_of_not_inprogress g cr dr true 1 ("ExactCapacity") rfl
    rw [hstep, adjustCore_resize_err_none g cr dr true 1 ("ExactCapacity")
      (by decide) (by decide) (by decide) herr]
    constructor
    · show (resize g cr dr true (newCapacityFor ("ExactCapacity") 1
        ((parseList (⟨none, none⟩ : ASGState).resource_id).length : Int)) none).rid =
        some (memberName g 0)
      rw [hkey, hres]
    · show parseList (resize g cr dr true (newCapacityFor ("ExactCapacity") 1
        ((parseList (⟨none, none⟩ : ASGState).resource_id).length : Int)) none).rid =
        [memberName g 0]
      rw [hkey, hres]
      exact parseList_commaFree (commaFree_memberName hg 0)

/-- Witness for C9 (amended): the concrete spec example with group name
`g` — capacity 1 with the single member `g-0`. -/
theorem c9_witness :
    (commaFree ("g") ∧ (fun _ => (none : Option String)) (memberName ("g") 0) = none) ∧
    (handle_create 7 ("g") ⟨1, 5, none, none⟩ (fun _ => none) (fun _ => none)
        ⟨none, none⟩).1.resource_id = some (memberName ("g") 0) ∧
    parseList (handle_create 7 ("g") ⟨1, 5, none, none⟩ (fun _ => none) (fun _ => none)
        ⟨none, none⟩).1.resource_id = [memberName ("g") 0] :=
  ⟨⟨by decide, rfl⟩,
    c9_initial_capacity.2.2 7 ("g") (fun _ => none) (fun _ => none) (by decide) rfl⟩

end Heat
